import Mathlib

/-!
Verification development for the `pangeo-forge-aws-bakery` repository.

The repository has two independent components:

* `flow_test/transform_tasks/xarray.py`: two pipeline tasks, `chunk`
  (partition an ordered sequence into fixed-size batches) and
  `combine_and_write` (open a batch of source files, concatenate them
  along a named dimension, re-chunk along the append dimension, and
  write-or-append the result into a chunked zarr store).
* `cdk/bakery_stack.py`: a purely declarative cloud-provisioning stack.

The substantive array I/O (fsspec, xarray, zarr) is an external
black-box dependency; its contract is modelled here exactly as the
specification describes it (datasets carry ordered coordinate values per
named dimension plus per-dimension chunk sizes; a store is a key/value
mapping holding at most one zarr dataset).  Everything from the
repository's own code (order of steps, the rechunk size `len(sources)`,
the `if not len(mapper)` mode decision, the returned value, the stack's
literal configuration values) is translated directly from the source.
-/

namespace Bakery

variable {α : Type} [DecidableEq α]

/-- Association-list lookup with propositional key equality: the first
value stored under key `k`, if any. -/
def alookup {β : Type} (k : String) : List (String × β) → Option β
  | [] => none
  | (k', v) :: rest => if k' = k then some v else alookup k rest

/-- Failure conditions surfaced by the external array/storage library,
as the spec's abstract taxonomy names them (§7): the source itself
defines no error taxonomy and catches nothing. -/
inductive Err where
  | sourceUnavailable (url : String)
  | datasetConflict
  | storageAccess
deriving DecidableEq, Repr

/-- Modelled from the spec: a dataset of the external array library
(xarray), §3/§6 — a self-describing array container.  We track, per
named dimension, the ordered coordinate values along that axis (which
is what order, duplication and size statements are about), and the
explicitly set chunk size per dimension. -/
structure Dataset (α : Type) where
  dims : List (String × List α)
  chunkSizes : List (String × Nat)
deriving DecidableEq, Repr

/-- The ordered coordinate values of `ds` along dimension `d`
(empty when the dimension is absent). -/
def Dataset.coords (ds : Dataset α) (d : String) : List α :=
  (alookup d ds.dims).getD []

/-- The length of `ds` along dimension `d`. -/
def Dataset.size (ds : Dataset α) (d : String) : Nat :=
  (ds.coords d).length

/-- `ds.chunk({d: n})`: set the chunk size along dimension `d` to `n`,
leaving every other dimension's chunking alone. -/
def Dataset.chunkDim (ds : Dataset α) (d : String) (n : Nat) : Dataset α :=
  { ds with chunkSizes := (d, n) :: ds.chunkSizes }

/-- Number of chunks `ds` occupies along dimension `d`: with an explicit
chunk size `n`, the ceiling of `size / n`; with no explicit chunking the
whole axis is one block. -/
def Dataset.numChunks (ds : Dataset α) (d : String) : Nat :=
  match alookup d ds.chunkSizes with
  | some n => if n = 0 then 0 else (ds.size d + n - 1) / n
  | none => 1

/-- Modelled from the spec: compatibility precondition the array library
imposes for concatenating `b` onto `a` along dimension `d` (schema must
agree: same dimensions, `d` present, and every other dimension
identical). -/
def concatCompat (d : String) (a b : Dataset α) : Prop :=
  a.dims.map Prod.fst = b.dims.map Prod.fst
  ∧ d ∈ a.dims.map Prod.fst
  ∧ ∀ p ∈ a.dims, p.1 ≠ d → alookup p.1 b.dims = some p.2

instance (d : String) (a b : Dataset α) : Decidable (concatCompat d a b) := by
  unfold concatCompat; infer_instance

/-- Append `e` to the entry stored under key `d`, leaving every other
entry unchanged. -/
def concatEntries (d : String) (e : List α) :
    List (String × List α) → List (String × List α)
  | [] => []
  | (k, v) :: rest =>
    (if k = d then (k, v ++ e) else (k, v)) :: concatEntries d e rest

/-- Modelled from the spec: the dataset obtained by concatenating `b`
onto `a` along dimension `d` — the `d` coordinates of `b` are appended
after those of `a`, in order; every other dimension is unchanged. -/
def concatDs (d : String) (a b : Dataset α) : Dataset α :=
  ⟨concatEntries d (b.coords d) a.dims, []⟩

/-- Modelled from the spec: `xr.concat` of two datasets along `d`. -/
def concat2 (d : String) (a b : Dataset α) : Except Err (Dataset α) :=
  if concatCompat d a b then .ok (concatDs d a b) else .error .datasetConflict

/-- Modelled from the spec: `xr.open_mfdataset(files, combine="nested",
concat_dim=d)` — one virtual dataset obtained by concatenating the
opened files along `d` in the exact list order given. -/
def open_mfdataset (d : String) : List (Dataset α) → Except Err (Dataset α)
  | [] => .error .datasetConflict
  | x :: xs => xs.foldlM (concat2 d) x

/-- Modelled from the spec: the state of the key/value mapping fsspec
exposes at one store locator — its raw keys (what `len(mapper)` counts)
and the zarr dataset the keys encode, if they encode one at all. -/
structure StoreVal (α : Type) where
  keys : List String
  zarr : Option (Dataset α)
deriving DecidableEq, Repr

/-- A locator with no mapping behind it: `len(mapper) = 0`. -/
def emptyStore : StoreVal α := ⟨[], none⟩

/-- The world the tasks act on: openable source files (byte streams
fsspec resolves by URL) and the store mappings, both keyed by locator. -/
structure World (α : Type) where
  files : List (String × Dataset α)
  stores : List (String × StoreVal α)
deriving DecidableEq, Repr

/-- `fsspec.open(url).open()`: resolve one source URL to its dataset;
a missing or unreadable source fails. -/
def fsspec_open (w : World α) (url : String) : Except Err (Dataset α) :=
  match alookup url w.files with
  | some ds => .ok ds
  | none => .error (.sourceUnavailable url)

/-- Line 72 of the task: `[fsspec.open(url).open() for url in sources]`,
failing on the first unopenable source. -/
def openAll (w : World α) (urls : List String) : Except Err (List (Dataset α)) :=
  urls.mapM (fsspec_open w)

/-- `fsspec.get_mapper(target)`: the mapping at `target`, empty when no
store exists there. -/
def get_mapper (w : World α) (target : String) : StoreVal α :=
  (alookup target w.stores).getD emptyStore

/-- Commit a new mapping state at `target`, leaving files and every
other locator untouched. -/
def setStore (w : World α) (target : String) (m : StoreVal α) : World α :=
  { w with stores := (target, m) :: w.stores }

/-- Modelled from the spec: the keys a zarr store holds once a dataset
is written — consolidated group metadata plus one array entry per
dimension; never empty. -/
def zarrKeys (ds : Dataset α) : List String :=
  ".zgroup" :: ds.dims.map (fun p => p.1 ++ "/.zarray")

/-- The mapping state encoding exactly the dataset `ds`. -/
def zarrStoreOf (ds : Dataset α) : StoreVal α :=
  ⟨zarrKeys ds, some ds⟩

/-- Modelled from the spec: `ds.to_zarr(mapper, mode="w")` — create
semantics: the store is created fresh from `ds`; whatever the mapping
held before is irrelevant. -/
def to_zarr_create (ds : Dataset α) (_mapper : StoreVal α) : StoreVal α :=
  zarrStoreOf ds

/-- Modelled from the spec: `ds.to_zarr(mapper, mode="a",
append_dim=d)` — append semantics: the existing store content is
extended along `d` by the coordinates of `ds`, nothing prior is
overwritten; fails when the mapping does not encode a dataset or the
schemas conflict. -/
def to_zarr_append (d : String) (ds : Dataset α) (mapper : StoreVal α) :
    Except Err (StoreVal α) :=
  match mapper.zarr with
  | none => .error .storageAccess
  | some old =>
    if concatCompat d old ds
    then .ok (zarrStoreOf (concatDs d old ds))
    else .error .datasetConflict

/-- The write-mode decision of lines 78-82: `if not len(mapper):
mode="w" else: mode="a", append_dim=append_dim`. -/
inductive WriteMode where
  | create
  | append
deriving DecidableEq, Repr

/-- Lines 78-82: create exactly when the mapping holds zero keys. -/
def writeMode (mapper : StoreVal α) : WriteMode :=
  if mapper.keys.length = 0 then .create else .append

/-- Lines 72-75 of `combine_and_write`: open every source in order,
build the virtual combined dataset along `concat_dim`, and re-chunk it
with chunk size `len(sources)` along `append_dim`. -/
def combinedRechunked (w : World α) (sources : List String)
    (append_dim concat_dim : String) : Except Err (Dataset α) := do
  let double_open_files ← openAll w sources
  let ds ← open_mfdataset concat_dim double_open_files
  return ds.chunkDim append_dim sources.length

/-- The `combine_and_write` Prefect task of
`flow_test/transform_tasks/xarray.py`, lines 72-84: open, combine,
re-chunk, pick create-vs-append from `len(mapper)`, write, and return
`target`.  Returns the resulting world next to the task's own result;
the world is mutated only by the final successful write. -/
def combine_and_write (w : World α) (sources : List String) (target : String)
    (append_dim concat_dim : String) : World α × Except Err String :=
  match combinedRechunked w sources append_dim concat_dim with
  | .error e => (w, .error e)
  | .ok ds =>
    match writeMode (get_mapper w target) with
    | .create => (setStore w target (to_zarr_create ds (get_mapper w target)), .ok target)
    | .append =>
      match to_zarr_append append_dim ds (get_mapper w target) with
      | .error e => (w, .error e)
      | .ok m => (setStore w target m, .ok target)

/-- A one-source world used to instantiate theorems with hypotheses on
a concrete input. -/
def wOne : World Nat :=
  ⟨[("s1", ⟨[("time", [0])], []⟩)], []⟩

/-- An empty world: no openable sources, no stores. -/
def wNone : World Nat := ⟨[], []⟩

/-- A world whose target mapping holds a key that encodes no valid
store. -/
def wJunk : World Nat :=
  ⟨[("s1", ⟨[("time", [0])], []⟩)], [("store", ⟨["junk"], none⟩)]⟩

/-- The combined re-chunked dataset of `wOne`'s single source. -/
def dsOne : Dataset Nat := ⟨[("time", [0])], [("time", 1)]⟩

/-- Prior content of a non-empty target store. -/
def oldOne : Dataset Nat := ⟨[("time", [5])], []⟩

/-- A world whose target already holds a valid non-empty store. -/
def wApp : World Nat :=
  ⟨[("s1", ⟨[("time", [0])], []⟩)], [("store", zarrStoreOf oldOne)]⟩

/-- A batch of two contiguous, pre-ordered sources, each contributing
two indices along the append dimension. -/
def wC2 : World Nat :=
  ⟨[("s1", ⟨[("time", [0, 1])], []⟩), ("s2", ⟨[("time", [2, 3])], []⟩)], []⟩

/-- A container port mapping, `aws_ecs.PortMapping`. -/
structure PortMapping where
  container_port : Nat
  host_port : Nat
deriving DecidableEq, Repr

/-- A target-group HTTP health check: request path and port. -/
structure HealthCheck where
  path : String
  port : String
deriving DecidableEq, Repr

/-- The container added to the agent task definition
(`cdk/bakery_stack.py`, lines 52-58). -/
structure ContainerDefinition where
  id : String
  image_directory : String
  port_mappings : List PortMapping
  log_stream : String
  secret_env : List String
deriving DecidableEq, Repr

/-- The `ApplicationLoadBalancedFargateService` declared on lines
60-75.  `public_load_balancer` is not set at the call site; the
construct's default — per the spec's description of the service as
externally load-balanced — is an internet-facing load balancer.  The
health check holds the values set by `configure_health_check`. -/
structure LoadBalancedService where
  id : String
  assign_public_ip : Bool
  desired_count : Nat
  public_load_balancer : Bool
  propagate_tags_from : String
  health_check : HealthCheck
deriving DecidableEq, Repr

/-- The whole provisioning declaration of `cdk/bakery_stack.py`: pure
configuration data, no control flow. -/
structure BakeryStack where
  vpc_id : String
  vpc_cidr : String
  nat_gateways : Nat
  max_azs : Nat
  cluster_id : String
  task_cpu : Nat
  task_memory_limit_mib : Nat
  container : ContainerDefinition
  service : LoadBalancedService
deriving DecidableEq, Repr

/-- `BakeryStack.__init__`: the literal resource declaration, value by
value from `cdk/bakery_stack.py`. -/
def bakeryStack (identifier : String) : BakeryStack :=
  { vpc_id := "bakery-vpc-" ++ identifier
    vpc_cidr := "10.0.0.0/16"
    nat_gateways := 0
    max_azs := 3
    cluster_id := "bakery-cluster-" ++ identifier
    task_cpu := 512
    task_memory_limit_mib := 2048
    container :=
      { id := "prefect-ecs-agent-task-container-" ++ identifier
        image_directory := "cdk/agent"
        port_mappings := [⟨8080, 8080⟩]
        log_stream := "ecs-agent"
        secret_env := ["PREFECT__CLOUD__AGENT__AUTH_TOKEN"] }
    service :=
      { id := "prefect-ecs-agent-service-" ++ identifier
        assign_public_ip := true
        desired_count := 1
        public_load_balancer := true
        propagate_tags_from := "SERVICE"
        health_check := { path := "/api/health", port := "8080" } } }

/-- Modelled from the spec: `pangeo_forge.utils.chunked_iterable` (an
external dependency of `flow_test/transform_tasks/xarray.py`, pinned by
the docstring example `chunk.run([1, 2, 3, 4, 5], size=2) =
[(1, 2), (3, 4), (5,)]`): repeatedly slice off a tuple of up to `size`
items until the slice comes back empty. -/
def chunked_iterable (l : List α) (size : Nat) : List (List α) :=
  if h : size = 0 ∨ l = [] then []
  else l.take size :: chunked_iterable (l.drop size) size
termination_by l.length
decreasing_by
  push_neg at h
  have hl : 0 < l.length := List.length_pos.mpr h.2
  have hs : 0 < size := Nat.pos_of_ne_zero h.1
  simpa [List.length_drop] using Nat.sub_lt hl hs

/-- The `chunk` Prefect task of `flow_test/transform_tasks/xarray.py`:
`return list(utils.chunked_iterable(sources, size))`. -/
def chunk (sources : List α) (size : Nat) : List (List α) :=
  chunked_iterable sources size

def exceptDecEq {ε σ : Type} [DecidableEq ε] [DecidableEq σ] :
    (a b : Except ε σ) → Decidable (a = b)
  | .error e1, .error e2 =>
    if h : e1 = e2 then .isTrue (by rw [h])
    else .isFalse (fun hc => h (by cases hc; rfl))
  | .error _, .ok _ => .isFalse (fun hc => Except.noConfusion hc)
  | .ok _, .error _ => .isFalse (fun hc => Except.noConfusion hc)
  | .ok v1, .ok v2 =>
    if h : v1 = v2 then .isTrue (by rw [h])
    else .isFalse (fun hc => h (by cases hc; rfl))

instance {ε σ : Type} [DecidableEq ε] [DecidableEq σ] : DecidableEq (Except ε σ) :=
  exceptDecEq

theorem chunked_iterable_nil (size : Nat) :
    chunked_iterable ([] : List α) size = [] := by
  rw [chunked_iterable]; simp

theorem chunked_iterable_cons (l : List α) (size : Nat)
    (hs : size ≠ 0) (hl : l ≠ []) :
    chunked_iterable l size
      = l.take size :: chunked_iterable (l.drop size) size := by
  rw [chunked_iterable]
  simp [hs, hl]

theorem chunked_iterable_flatten (n : Nat) (hn : 0 < n) :
    ∀ (len : Nat) (S : List α), S.length ≤ len →
      (chunked_iterable S n).flatten = S := by
  intro len
  induction len with
  | zero =>
    intro S hS
    have : S = [] := List.eq_nil_of_length_eq_zero (Nat.le_zero.mp hS)
    subst this
    simp [chunked_iterable_nil]
  | succ len ih =>
    intro S hS
    by_cases hSnil : S = []
    · subst hSnil; simp [chunked_iterable_nil]
    · rw [chunked_iterable_cons S n (Nat.pos_iff_ne_zero.mp hn) hSnil]
      have hlt : (S.drop n).length ≤ len := by
        have h1 : (S.drop n).length < S.length := by
          simpa [List.length_drop] using
            Nat.sub_lt (List.length_pos.mpr hSnil) hn
        omega
      rw [List.flatten_cons, ih (S.drop n) hlt]
      exact List.take_append_drop n S

theorem chunk_join (S : List α) (n : Nat) (hn : 0 < n) :
    (chunk S n).flatten = S :=
  chunked_iterable_flatten n hn S.length S le_rfl

theorem chunked_iterable_dropLast (n : Nat) (hn : 0 < n) :
    ∀ (len : Nat) (S : List α), S.length ≤ len →
      ∀ t ∈ (chunked_iterable S n).dropLast, t.length = n := by
  intro len
  induction len with
  | zero =>
    intro S hS t ht
    have : S = [] := List.eq_nil_of_length_eq_zero (Nat.le_zero.mp hS)
    subst this
    simp [chunked_iterable_nil] at ht
  | succ len ih =>
    intro S hS t ht
    by_cases hSnil : S = []
    · subst hSnil; simp [chunked_iterable_nil] at ht
    · rw [chunked_iterable_cons S n (Nat.pos_iff_ne_zero.mp hn) hSnil] at ht
      by_cases hdrop : S.drop n = []
      · rw [hdrop, chunked_iterable_nil] at ht
        simp at ht
      · have hrest : chunked_iterable (S.drop n) n ≠ [] := by
          rw [chunked_iterable_cons (S.drop n) n (Nat.pos_iff_ne_zero.mp hn) hdrop]
          exact List.cons_ne_nil _ _
        rw [List.dropLast_cons_of_ne_nil hrest] at ht
        rcases List.mem_cons.mp ht with h | h
        · subst h
          have hlt : n < S.length := by
            by_contra hc
            exact hdrop (List.drop_eq_nil_iff.mpr (Nat.le_of_not_lt hc))
          simp [List.length_take, Nat.min_eq_left (Nat.le_of_lt hlt)]
        · have hlen : (S.drop n).length ≤ len := by
            have h1 : (S.drop n).length < S.length := by
              simpa [List.length_drop] using
                Nat.sub_lt (List.length_pos.mpr hSnil) hn
            omega
          exact ih (S.drop n) hlen t h

theorem chunked_iterable_getLast (n : Nat) (hn : 0 < n) :
    ∀ (len : Nat) (S : List α), S.length ≤ len → S ≠ [] →
      ∀ t, (chunked_iterable S n).getLast? = some t →
        t.length = if S.length % n = 0 then n else S.length % n := by
  intro len
  induction len with
  | zero =>
    intro S hS hSnil
    exact absurd (List.eq_nil_of_length_eq_zero (Nat.le_zero.mp hS)) hSnil
  | succ len ih =>
    intro S hS hSnil t ht
    rw [chunked_iterable_cons S n (Nat.pos_iff_ne_zero.mp hn) hSnil] at ht
    by_cases hdrop : S.drop n = []
    · rw [hdrop, chunked_iterable_nil] at ht
      simp only [List.getLast?_singleton, Option.some.injEq] at ht
      subst ht
      have hle : S.length ≤ n := List.drop_eq_nil_iff.mp hdrop
      have hpos : 0 < S.length := List.length_pos.mpr hSnil
      rcases Nat.lt_or_ge S.length n with hlt | hge
      · rw [List.length_take, Nat.min_eq_right (Nat.le_of_lt hlt),
          Nat.mod_eq_of_lt hlt, if_neg (Nat.pos_iff_ne_zero.mp hpos)]
      · have heq : S.length = n := Nat.le_antisymm hle hge
        rw [List.length_take, heq, Nat.min_self, Nat.mod_self, if_pos rfl]
    · rw [chunked_iterable_cons (S.drop n) n (Nat.pos_iff_ne_zero.mp hn) hdrop,
        List.getLast?_cons_cons,
        ← chunked_iterable_cons (S.drop n) n (Nat.pos_iff_ne_zero.mp hn) hdrop] at ht
      have hlen : (S.drop n).length ≤ len := by
        have h1 : (S.drop n).length < S.length := by
          simpa [List.length_drop] using
            Nat.sub_lt (List.length_pos.mpr hSnil) hn
        omega
      have := ih (S.drop n) hlen hdrop t ht
      have hle : n ≤ S.length := by
        by_contra hc
        exact hdrop (List.drop_eq_nil_iff.mpr (Nat.le_of_lt (Nat.lt_of_not_le hc)))
      have hsplit : S.length = n + (S.length - n) := by omega
      rw [List.length_drop] at this
      rw [hsplit, Nat.add_mod_left]
      exact this

/-- C3: for every ordered sequence `S` and positive `n`, the `chunk`
partitioner's output flattens back to `S` in order (no item dropped,
duplicated or reordered), every tuple except possibly the last has
length `n`, the last tuple has length `S.length % n` (or `n` when `n`
divides evenly), and the empty sequence yields the empty result. -/
theorem chunk_partition_spec (S : List α) (n : Nat) (hn : 0 < n) :
    (chunk S n).flatten = S
    ∧ (∀ t ∈ (chunk S n).dropLast, t.length = n)
    ∧ (∀ t, (chunk S n).getLast? = some t →
        t.length = if S.length % n = 0 then n else S.length % n)
    ∧ chunk ([] : List α) n = [] := by
  refine ⟨chunk_join S n hn,
    chunked_iterable_dropLast n hn S.length S le_rfl, ?_, chunked_iterable_nil n⟩
  intro t ht
  by_cases hSnil : S = []
  · subst hSnil
    rw [chunk, chunked_iterable_nil] at ht
    simp at ht
  · exact chunked_iterable_getLast n hn S.length S le_rfl hSnil t ht

theorem alookup_cons {β : Type} (k k' : String) (v : β) (rest : List (String × β)) :
    alookup k ((k', v) :: rest) = if k' = k then some v else alookup k rest := rfl

theorem concatEntries_cons (d : String) (e : List α) (k : String) (v : List α)
    (rest : List (String × List α)) :
    concatEntries d e ((k, v) :: rest)
      = (if k = d then (k, v ++ e) else (k, v)) :: concatEntries d e rest := rfl

theorem alookup_concatEntries_self (d : String) (e : List α) :
    ∀ l : List (String × List α),
      alookup d (concatEntries d e l) = (alookup d l).map (fun v => v ++ e) := by
  intro l
  induction l with
  | nil => rfl
  | cons p l ih =>
    obtain ⟨k, v⟩ := p
    by_cases h : k = d
    · subst h
      rw [concatEntries_cons, if_pos rfl, alookup_cons, if_pos rfl,
        alookup_cons, if_pos rfl]
      rfl
    · rw [concatEntries_cons, if_neg h, alookup_cons, if_neg h,
        alookup_cons, if_neg h, ih]

theorem alookup_concatEntries_ne (d d' : String) (e : List α) (hne : d' ≠ d) :
    ∀ l : List (String × List α),
      alookup d' (concatEntries d e l) = alookup d' l := by
  intro l
  induction l with
  | nil => rfl
  | cons p l ih =>
    obtain ⟨k, v⟩ := p
    by_cases h : k = d
    · subst h
      rw [concatEntries_cons, if_pos rfl, alookup_cons, if_neg (Ne.symm hne),
        alookup_cons, if_neg (Ne.symm hne), ih]
    · by_cases h2 : k = d'
      · subst h2
        rw [concatEntries_cons, if_neg h, alookup_cons, if_pos rfl,
          alookup_cons, if_pos rfl]
      · rw [concatEntries_cons, if_neg h, alookup_cons, if_neg h2,
          alookup_cons, if_neg h2, ih]

theorem concatEntries_keys (d : String) (e : List α) :
    ∀ l : List (String × List α),
      (concatEntries d e l).map Prod.fst = l.map Prod.fst := by
  intro l
  induction l with
  | nil => rfl
  | cons p l ih =>
    obtain ⟨k, v⟩ := p
    by_cases h : k = d
    · subst h
      rw [concatEntries_cons, if_pos rfl, List.map_cons, List.map_cons, ih]
    · rw [concatEntries_cons, if_neg h, List.map_cons, List.map_cons, ih]

theorem mem_concatEntries_ne (d : String) (e : List α) :
    ∀ l : List (String × List α), ∀ p ∈ concatEntries d e l, p.1 ≠ d → p ∈ l := by
  intro l
  induction l with
  | nil => intro p hp; simp [concatEntries] at hp
  | cons q l ih =>
    obtain ⟨k, v⟩ := q
    intro p hp hpne
    by_cases h : k = d
    · subst h
      simp only [concatEntries, if_pos rfl, List.mem_cons] at hp
      rcases hp with h1 | h1
      · rw [h1] at hpne
        exact absurd rfl hpne
      · exact List.mem_cons_of_mem _ (ih p h1 hpne)
    · simp only [concatEntries, if_neg h, List.mem_cons] at hp
      rcases hp with h1 | h1
      · rw [h1]
        exact List.mem_cons_self _ _
      · exact List.mem_cons_of_mem _ (ih p h1 hpne)

theorem alookup_of_mem_keys {β : Type} (d : String) :
    ∀ l : List (String × β), d ∈ l.map Prod.fst → ∃ v, alookup d l = some v := by
  intro l
  induction l with
  | nil => simp
  | cons p l ih =>
    intro hd
    by_cases h : p.1 = d
    · exact ⟨p.2, by simp [alookup, h]⟩
    · simp only [List.map_cons, List.mem_cons] at hd
      rcases hd with h1 | h1
      · exact absurd h1.symm h
      · obtain ⟨v, hv⟩ := ih h1
        exact ⟨v, by simp [alookup, h, hv]⟩

theorem concatDs_keys (d : String) (a b : Dataset α) :
    (concatDs d a b).dims.map Prod.fst = a.dims.map Prod.fst :=
  concatEntries_keys d (b.coords d) a.dims

theorem concatDs_coords_self (d : String) (a b : Dataset α)
    (hd : d ∈ a.dims.map Prod.fst) :
    (concatDs d a b).coords d = a.coords d ++ b.coords d := by
  obtain ⟨v, hv⟩ := alookup_of_mem_keys d a.dims hd
  unfold concatDs Dataset.coords
  rw [alookup_concatEntries_self, hv]
  simp

theorem concatDs_coords_other (d d' : String) (a b : Dataset α) (hne : d' ≠ d) :
    (concatDs d a b).coords d' = a.coords d' := by
  unfold concatDs Dataset.coords
  rw [alookup_concatEntries_ne d d' _ hne]

theorem concatCompat_concatDs (d : String) (a b : Dataset α)
    (h : concatCompat d a b) : concatCompat d (concatDs d a b) b := by
  obtain ⟨hkeys, hd, hoff⟩ := h
  refine ⟨?_, ?_, ?_⟩
  · rw [concatDs_keys]; exact hkeys
  · rw [concatDs_keys]; exact hd
  · intro p hp hpne
    exact hoff p (mem_concatEntries_ne d (b.coords d) a.dims p hp hpne) hpne

theorem open_mfdataset_coords_fold (d : String) :
    ∀ (xs : List (Dataset α)) (a c : Dataset α),
      xs.foldlM (concat2 d) a = .ok c →
      c.coords d = a.coords d ++ (xs.map (fun s => s.coords d)).flatten := by
  intro xs
  induction xs with
  | nil =>
    intro a c h
    simp only [List.foldlM_nil, pure] at h
    cases h
    simp
  | cons x xs ih =>
    intro a c h
    rw [List.foldlM_cons] at h
    cases hc : concat2 d a x with
    | error e => rw [hc] at h; simp [Bind.bind, Except.bind] at h
    | ok a' =>
      rw [hc] at h
      simp only [Bind.bind, Except.bind] at h
      have hrec := ih a' c h
      unfold concat2 at hc
      split at hc
      · rename_i hcompat
        cases hc
        rw [hrec, concatDs_coords_self d a x hcompat.2.1]
        simp [List.append_assoc]
      · cases hc

theorem chunkDim_coords (ds : Dataset α) (d d' : String) (n : Nat) :
    (ds.chunkDim d n).coords d' = ds.coords d' := rfl

theorem get_mapper_setStore_self (w : World α) (t : String) (m : StoreVal α) :
    get_mapper (setStore w t m) t = m := by
  simp [get_mapper, setStore, alookup]

theorem get_mapper_setStore_other (w : World α) (t l : String) (m : StoreVal α)
    (h : l ≠ t) : get_mapper (setStore w t m) l = get_mapper w l := by
  simp [get_mapper, setStore, alookup, Ne.symm h]

theorem setStore_files (w : World α) (t : String) (m : StoreVal α) :
    (setStore w t m).files = w.files := rfl

theorem combinedRechunked_setStore (w : World α) (t : String) (m : StoreVal α)
    (sources : List String) (ad cd : String) :
    combinedRechunked (setStore w t m) sources ad cd
      = combinedRechunked w sources ad cd := rfl

theorem zarrKeys_ne_nil (ds : Dataset α) : zarrKeys ds ≠ [] :=
  List.cons_ne_nil _ _

/-- Witness for C3 at the docstring's own example
`chunk [1,2,3,4,5] 2 = [(1,2),(3,4),(5,)]`. -/
theorem chunk_partition_spec_witness :
    0 < 2
    ∧ ((chunk [1, 2, 3, 4, 5] 2).flatten = [1, 2, 3, 4, 5]
      ∧ (∀ t ∈ (chunk [1, 2, 3, 4, 5] 2).dropLast, t.length = 2)
      ∧ (∀ t, (chunk [1, 2, 3, 4, 5] 2).getLast? = some t →
          t.length = if ([1, 2, 3, 4, 5] : List Nat).length % 2 = 0
            then 2 else ([1, 2, 3, 4, 5] : List Nat).length % 2)
      ∧ chunk ([] : List Nat) 2 = []) :=
  ⟨by decide, chunk_partition_spec [1, 2, 3, 4, 5] 2 (by decide)⟩

theorem combine_and_write_error_eq (w : World α) (sources : List String)
    (target ad cd : String) (e : Err)
    (h : combinedRechunked w sources ad cd = .error e) :
    combine_and_write w sources target ad cd = (w, .error e) := by
  unfold combine_and_write
  rw [h]

theorem combine_and_write_ok_eq (w : World α) (sources : List String)
    (target ad cd : String) (ds : Dataset α)
    (hds : combinedRechunked w sources ad cd = .ok ds) :
    combine_and_write w sources target ad cd
      = match writeMode (get_mapper w target) with
        | .create =>
          (setStore w target (to_zarr_create ds (get_mapper w target)), .ok target)
        | .append =>
          match to_zarr_append ad ds (get_mapper w target) with
          | .error e => (w, .error e)
          | .ok m => (setStore w target m, .ok target) := by
  unfold combine_and_write
  rw [hds]

/-- C5: whenever `combine_and_write` succeeds, the value it returns is
the target store locator passed in, unchanged. -/
theorem combine_and_write_returns_target (w : World α) (sources : List String)
    (target ad cd : String) (r : String)
    (h : (combine_and_write w sources target ad cd).2 = .ok r) :
    r = target := by
  unfold combine_and_write at h
  split at h
  · simp at h
  · split at h
    · simp at h
      exact h.symm
    · split at h
      · simp at h
      · simp at h
        exact h.symm

/-- Witness for C5: running the task on a concrete world returns the
target locator. -/
theorem combine_and_write_returns_target_witness :
    (combine_and_write wOne ["s1"] "store" "time" "time").2 = .ok "store"
    ∧ "store" = "store" :=
  ⟨by decide, combine_and_write_returns_target wOne ["s1"] "store" "time" "time"
    "store" (by decide)⟩

/-- C7: no failure is caught, retried or rolled back: an error in the
open/combine/re-chunk phase surfaces unmodified with the world
untouched, a failing append write surfaces its error unmodified, and
whenever the task fails the world — including the prior content of the
target store — is exactly as it was before the call. -/
theorem combine_and_write_propagates (w : World α) (sources : List String)
    (target ad cd : String) (e : Err) (ds : Dataset α) :
    (combinedRechunked w sources ad cd = .error e →
      combine_and_write w sources target ad cd = (w, .error e))
    ∧ (combinedRechunked w sources ad cd = .ok ds →
        writeMode (get_mapper w target) = .append →
        to_zarr_append ad ds (get_mapper w target) = .error e →
        combine_and_write w sources target ad cd = (w, .error e))
    ∧ ((combine_and_write w sources target ad cd).2 = .error e →
        (combine_and_write w sources target ad cd).1 = w) := by
  refine ⟨fun h => combine_and_write_error_eq w sources target ad cd e h,
    fun h1 h2 h3 => ?_, fun h => ?_⟩
  · rw [combine_and_write_ok_eq w sources target ad cd ds h1, h2, h3]
  · cases hcr : combinedRechunked w sources ad cd with
    | error e2 =>
      rw [combine_and_write_error_eq w sources target ad cd e2 hcr]
    | ok ds2 =>
      rw [combine_and_write_ok_eq w sources target ad cd ds2 hcr] at h ⊢
      cases hwm : writeMode (get_mapper (α := α) w target) with
      | create =>
        rw [hwm] at h
        exact Except.noConfusion h
      | append =>
        rw [hwm] at h
        cases hz : to_zarr_append ad ds2 (get_mapper w target) with
        | error e2 => rfl
        | ok m =>
          rw [hz] at h
          exact Except.noConfusion h

/-- Witness for C7: a missing source propagates as-is and leaves the
world unchanged. -/
theorem combine_and_write_propagates_witness :
    combinedRechunked wNone ["s1"] "time" "time"
        = .error (.sourceUnavailable "s1")
    ∧ combine_and_write wNone ["s1"] "store" "time" "time"
        = (wNone, .error (.sourceUnavailable "s1")) :=
  ⟨by decide, (combine_and_write_propagates wNone ["s1"] "store" "time" "time"
      (.sourceUnavailable "s1") ⟨[], []⟩).1 (by decide)⟩

theorem combine_and_write_world (w : World α) (sources : List String)
    (target ad cd : String) :
    (combine_and_write w sources target ad cd).1 = w
    ∨ ∃ m, (combine_and_write w sources target ad cd).1
        = setStore w target m := by
  cases hcr : combinedRechunked w sources ad cd with
  | error e2 =>
    rw [combine_and_write_error_eq w sources target ad cd e2 hcr]
    left
    rfl
  | ok ds2 =>
    rw [combine_and_write_ok_eq w sources target ad cd ds2 hcr]
    cases hwm : writeMode (get_mapper (α := α) w target) with
    | create => right; exact ⟨_, rfl⟩
    | append =>
      cases hz : to_zarr_append ad ds2 (get_mapper w target) with
      | error e2 => left; rfl
      | ok m => right; exact ⟨m, rfl⟩

/-- C8: only the final write mutates the target store: a failure in the
open/combine/re-chunk phase leaves the world exactly as it was, and even
a completed call never touches the source files or any store other than
the target locator. -/
theorem combine_and_write_mutates_only_target (w : World α) (sources : List String)
    (target ad cd : String) (e : Err) :
    (combinedRechunked w sources ad cd = .error e →
      (combine_and_write w sources target ad cd).1 = w)
    ∧ (combine_and_write w sources target ad cd).1.files = w.files
    ∧ (∀ l, l ≠ target →
        get_mapper (combine_and_write w sources target ad cd).1 l
          = get_mapper w l) := by
  refine ⟨fun h => by rw [combine_and_write_error_eq w sources target ad cd e h],
    ?_, ?_⟩
  · rcases combine_and_write_world w sources target ad cd with h | ⟨m, h⟩
    · rw [h]
    · rw [h]
      rfl
  · intro l hl
    rcases combine_and_write_world w sources target ad cd with h | ⟨m, h⟩
    · rw [h]
    · rw [h]
      exact get_mapper_setStore_other w target l m hl

/-- Witness for C8: with a failing source the world is returned
unchanged. -/
theorem combine_and_write_mutates_only_target_witness :
    combinedRechunked wNone ["s1"] "time" "time"
        = .error (.sourceUnavailable "s1")
    ∧ (combine_and_write wNone ["s1"] "store" "time" "time").1 = wNone :=
  ⟨by decide, (combine_and_write_mutates_only_target wNone ["s1"] "store"
      "time" "time" (.sourceUnavailable "s1")).1 (by decide)⟩

/-- C9: the create-vs-append decision reads nothing but the number of
keys in the mapping at the target: two mappings with the same keys get
the same mode whatever they store, create is chosen exactly when there
are zero keys, append exactly when there is at least one — and a target
holding keys that encode no valid store is still routed to append mode
(where the write then fails), never to create mode. -/
theorem writeMode_keys_only (w : World α) (sources : List String)
    (target ad cd : String) (ds : Dataset α) (m1 m2 : StoreVal α) :
    (m1.keys = m2.keys → writeMode m1 = writeMode m2)
    ∧ (writeMode m1 = .create ↔ m1.keys = [])
    ∧ (writeMode m1 = .append ↔ m1.keys ≠ [])
    ∧ (combinedRechunked w sources ad cd = .ok ds →
        (get_mapper w target).keys ≠ [] →
        (get_mapper w target).zarr = none →
        combine_and_write w sources target ad cd
          = (w, .error .storageAccess)) := by
  have hmode : ∀ m : StoreVal α, m.keys ≠ [] → writeMode m = .append := by
    intro m hm
    unfold writeMode
    rw [if_neg (fun hc => hm (List.eq_nil_of_length_eq_zero hc))]
  refine ⟨fun h => by unfold writeMode; rw [h], ?_, ?_, fun h1 h2 h3 => ?_⟩
  · constructor
    · intro h
      by_cases hk : m1.keys.length = 0
      · exact List.eq_nil_of_length_eq_zero hk
      · rw [writeMode, if_neg hk] at h
        cases h
    · intro h
      rw [writeMode, if_pos (by rw [h]; rfl)]
  · constructor
    · intro h hk
      rw [writeMode, if_pos (by rw [hk]; rfl)] at h
      cases h
    · exact hmode m1
  · rw [combine_and_write_ok_eq w sources target ad cd ds h1,
      hmode _ h2]
    unfold to_zarr_append
    rw [h3]

/-- Witness for C9: the junk-keyed target is routed to append mode and
the write fails, leaving the world unchanged. -/
theorem writeMode_keys_only_witness :
    (combinedRechunked wJunk ["s1"] "time" "time"
        = .ok ⟨[("time", [0])], [("time", 1)]⟩
      ∧ (get_mapper wJunk "store").keys ≠ []
      ∧ (get_mapper wJunk "store").zarr = none)
    ∧ combine_and_write wJunk ["s1"] "store" "time" "time"
        = (wJunk, .error .storageAccess) :=
  ⟨⟨by decide, by decide, by decide⟩,
    (writeMode_keys_only wJunk ["s1"] "store" "time" "time"
      ⟨[("time", [0])], [("time", 1)]⟩ ⟨[], none⟩ ⟨[], none⟩).2.2.2
      (by decide) (by decide) (by decide)⟩

theorem combinedRechunked_ok_parts (w : World α) (sources : List String)
    (ad cd : String) (ds : Dataset α)
    (h : combinedRechunked w sources ad cd = .ok ds) :
    ∃ dss c, openAll w sources = .ok dss
      ∧ open_mfdataset cd dss = .ok c
      ∧ ds = c.chunkDim ad sources.length := by
  unfold combinedRechunked at h
  cases ho : openAll w sources with
  | error e =>
    rw [ho] at h
    simp only [Bind.bind, Except.bind] at h
    exact Except.noConfusion h
  | ok dss =>
    rw [ho] at h
    simp only [Bind.bind, Except.bind] at h
    cases hm : open_mfdataset cd dss with
    | error e =>
      rw [hm] at h
      exact Except.noConfusion h
    | ok c =>
      rw [hm] at h
      simp only [pure, Except.pure, Except.ok.injEq] at h
      exact ⟨dss, c, rfl, hm, h.symm⟩

/-- C4: the virtual combined dataset is built by concatenating the
opened sources along the concat dimension in the exact order of the
input list: its concat-dimension coordinates are precisely the opened
sources' coordinates laid end to end in list order — nothing re-sorted,
nothing deduplicated. -/
theorem combined_preserves_order (w : World α) (sources : List String)
    (ad cd : String) (dss : List (Dataset α)) (ds : Dataset α)
    (hopen : openAll w sources = .ok dss)
    (hds : combinedRechunked w sources ad cd = .ok ds) :
    ds.coords cd = (dss.map (fun s => s.coords cd)).flatten := by
  obtain ⟨dss2, c, ho2, hm, hchunk⟩ :=
    combinedRechunked_ok_parts w sources ad cd ds hds
  rw [hopen] at ho2
  cases ho2
  subst hchunk
  rw [chunkDim_coords]
  cases dss with
  | nil => exact Except.noConfusion hm
  | cons x xs =>
    have hfold := open_mfdataset_coords_fold cd xs x c hm
    rw [hfold, List.map_cons, List.flatten_cons]

/-- Witness for C4: two sources combine to their coordinates laid end
to end. -/
theorem combined_preserves_order_witness :
    (openAll wC2 ["s1", "s2"]
        = .ok [⟨[("time", [0, 1])], []⟩, ⟨[("time", [2, 3])], []⟩]
      ∧ combinedRechunked wC2 ["s1", "s2"] "time" "time"
        = .ok ⟨[("time", [0, 1, 2, 3])], [("time", 2)]⟩)
    ∧ (⟨[("time", [0, 1, 2, 3])], [("time", 2)]⟩ : Dataset Nat).coords "time"
        = (([⟨[("time", [0, 1])], []⟩, ⟨[("time", [2, 3])], []⟩] :
            List (Dataset Nat)).map (fun s => s.coords "time")).flatten :=
  ⟨⟨by decide, by decide⟩,
    combined_preserves_order wC2 ["s1", "s2"] "time" "time"
      [⟨[("time", [0, 1])], []⟩, ⟨[("time", [2, 3])], []⟩]
      ⟨[("time", [0, 1, 2, 3])], [("time", 2)]⟩ (by decide) (by decide)⟩

/-- C1: when the mapping at the target holds no keys the write is an
initial create — the store afterwards is exactly the combined dataset,
independent of the prior mapping value; when it holds keys (and encodes
a store the batch is compatible with) the write is an append along the
append dimension — the prior coordinates survive as a prefix and every
other dimension is untouched. -/
theorem combine_and_write_create_append (w : World α) (sources : List String)
    (target ad cd : String) (ds old : Dataset α)
    (hds : combinedRechunked w sources ad cd = .ok ds) :
    ((get_mapper w target).keys = [] →
      combine_and_write w sources target ad cd
        = (setStore w target (zarrStoreOf ds), .ok target))
    ∧ ((get_mapper w target).keys ≠ [] →
        (get_mapper w target).zarr = some old →
        concatCompat ad old ds →
        combine_and_write w sources target ad cd
          = (setStore w target (zarrStoreOf (concatDs ad old ds)), .ok target)
        ∧ (concatDs ad old ds).coords ad = old.coords ad ++ ds.coords ad
        ∧ (∀ d, d ≠ ad → (concatDs ad old ds).coords d = old.coords d)) := by
  constructor
  · intro hk
    rw [combine_and_write_ok_eq w sources target ad cd ds hds]
    have hwm : writeMode (get_mapper (α := α) w target) = .create := by
      rw [writeMode, if_pos (by rw [hk]; rfl)]
    rw [hwm]
    rfl
  · intro hk hz hcompat
    have hwm : writeMode (get_mapper (α := α) w target) = .append := by
      rw [writeMode, if_neg (fun hc => hk (List.eq_nil_of_length_eq_zero hc))]
    have hap : to_zarr_append ad ds (get_mapper w target)
        = .ok (zarrStoreOf (concatDs ad old ds)) := by
      unfold to_zarr_append
      rw [hz]
      exact if_pos hcompat
    refine ⟨?_, concatDs_coords_self ad old ds hcompat.2.1,
      fun d hd => concatDs_coords_other ad d old ds hd⟩
    rw [combine_and_write_ok_eq w sources target ad cd ds hds, hwm, hap]

/-- Witness for C1: a create against an empty target and an append
against a non-empty target, on concrete worlds. -/
theorem combine_and_write_create_append_witness :
    (combinedRechunked wOne ["s1"] "time" "time" = .ok dsOne
      ∧ (get_mapper wOne "store").keys = []
      ∧ combine_and_write wOne ["s1"] "store" "time" "time"
          = (setStore wOne "store" (zarrStoreOf dsOne), .ok "store"))
    ∧ (combinedRechunked wApp ["s1"] "time" "time" = .ok dsOne
      ∧ (get_mapper wApp "store").keys ≠ []
      ∧ (get_mapper wApp "store").zarr = some oldOne
      ∧ concatCompat "time" oldOne dsOne
      ∧ combine_and_write wApp ["s1"] "store" "time" "time"
          = (setStore wApp "store" (zarrStoreOf (concatDs "time" oldOne dsOne)),
            .ok "store")) :=
  ⟨⟨by decide, by decide,
    (combine_and_write_create_append wOne ["s1"] "store" "time" "time"
      dsOne oldOne (by decide)).1 (by decide)⟩,
   ⟨by decide, by decide, by decide, by decide,
    ((combine_and_write_create_append wApp ["s1"] "store" "time" "time"
      dsOne oldOne (by decide)).2 (by decide) (by decide) (by decide)).1⟩⟩

/-- C2 counterexample: a batch of two contiguous, pre-ordered sources,
each contributing two indices along the append dimension, is re-chunked
into TWO chunks along the append dimension, not one — the chunk size is
the number of sources, not the combined length. -/
theorem rechunk_two_chunks_counterexample :
    (combinedRechunked wC2 ["s1", "s2"] "time" "time").toOption.map
      (fun ds => ds.numChunks "time") = some 2 ∧ (2 : Nat) ≠ 1 :=
  ⟨by decide, by decide⟩

/-- C2 (amended): re-chunking sets the append-dimension chunk size to
the number of sources in the batch, so the re-chunked combined dataset
occupies exactly one chunk along the append dimension iff its size along
that dimension is positive and at most the number of sources — as in the
intended use where each source contributes exactly one index; batches
whose combined extent exceeds the source count span several chunks. -/
theorem rechunk_chunk_size (w : World α) (sources : List String)
    (ad cd : String) (ds : Dataset α)
    (hds : combinedRechunked w sources ad cd = .ok ds) :
    alookup ad ds.chunkSizes = some sources.length
    ∧ (ds.numChunks ad = 1
        ↔ 0 < ds.size ad ∧ ds.size ad ≤ sources.length) := by
  obtain ⟨dss, c, ho, hm, hchunk⟩ :=
    combinedRechunked_ok_parts w sources ad cd ds hds
  have npos : 0 < sources.length := by
    cases hs : sources with
    | nil =>
      subst hs
      rw [show openAll w ([] : List String) = Except.ok [] from rfl] at ho
      cases ho
      exact Except.noConfusion hm
    | cons s ss => simp
  subst hchunk
  constructor
  · rw [show (c.chunkDim ad sources.length).chunkSizes
        = (ad, sources.length) :: c.chunkSizes from rfl,
      alookup_cons, if_pos rfl]
  · unfold Dataset.numChunks
    rw [show (c.chunkDim ad sources.length).chunkSizes
        = (ad, sources.length) :: c.chunkSizes from rfl,
      alookup_cons, if_pos rfl]
    dsimp only
    rw [if_neg (Nat.pos_iff_ne_zero.mp npos)]
    constructor
    · intro h1
      have h3 : 1 * sources.length
          ≤ (c.chunkDim ad sources.length).size ad + sources.length - 1 :=
        (Nat.le_div_iff_mul_le npos).mp (Nat.le_of_eq h1.symm)
      have h4 : (c.chunkDim ad sources.length).size ad + sources.length - 1
          < 2 * sources.length :=
        (Nat.div_lt_iff_lt_mul npos).mp (by rw [h1]; exact Nat.one_lt_two)
      omega
    · intro h2
      have h3 : 1 ≤ ((c.chunkDim ad sources.length).size ad
          + sources.length - 1) / sources.length :=
        (Nat.le_div_iff_mul_le npos).mpr (by omega)
      have h4 : ((c.chunkDim ad sources.length).size ad
          + sources.length - 1) / sources.length < 2 :=
        (Nat.div_lt_iff_lt_mul npos).mpr (by omega)
      omega

/-- Witness for C2 (amended): on a one-source batch the chunk size is 1
and the combined dataset is a single chunk. -/
theorem rechunk_chunk_size_witness :
    combinedRechunked wOne ["s1"] "time" "time" = .ok dsOne
    ∧ (alookup "time" dsOne.chunkSizes = some 1
      ∧ (dsOne.numChunks "time" = 1
          ↔ 0 < dsOne.size "time" ∧ dsOne.size "time" ≤ 1)) := by
  refine ⟨by decide, ?_⟩
  have h := rechunk_chunk_size wOne ["s1"] "time" "time" dsOne (by decide)
  simpa using h

theorem combine_and_write_append_eq (w : World α) (sources : List String)
    (target ad cd : String) (b old : Dataset α)
    (hb : combinedRechunked w sources ad cd = .ok b)
    (hm : get_mapper w target = zarrStoreOf old)
    (hc : concatCompat ad old b) :
    combine_and_write w sources target ad cd
      = (setStore w target (zarrStoreOf (concatDs ad old b)), .ok target) := by
  rw [combine_and_write_ok_eq w sources target ad cd b hb]
  have hkeys : (get_mapper (α := α) w target).keys.length ≠ 0 := by
    rw [hm]
    simp [zarrStoreOf, zarrKeys]
  have hwm : writeMode (get_mapper (α := α) w target) = .append := by
    rw [writeMode, if_neg hkeys]
  have hap : to_zarr_append ad b (get_mapper w target)
      = .ok (zarrStoreOf (concatDs ad old b)) := by
    unfold to_zarr_append
    rw [show (get_mapper (α := α) w target).zarr = some old from by rw [hm]; rfl]
    exact if_pos hc
  rw [hwm, hap]

/-- C6: `combine_and_write` is not idempotent: against a non-empty valid
store, running the same batch twice succeeds twice and appends it twice
— the final store content along the append dimension is the prior
content followed by two copies of the batch, not one. -/
theorem combine_and_write_not_idempotent (w : World α) (sources : List String)
    (target ad cd : String) (b old : Dataset α)
    (hb : combinedRechunked w sources ad cd = .ok b)
    (hm : get_mapper w target = zarrStoreOf old)
    (hc : concatCompat ad old b) :
    (combine_and_write w sources target ad cd).2 = .ok target
    ∧ (combine_and_write (combine_and_write w sources target ad cd).1
        sources target ad cd).2 = .ok target
    ∧ (get_mapper (combine_and_write
          (combine_and_write w sources target ad cd).1
          sources target ad cd).1 target).zarr
        = some (concatDs ad (concatDs ad old b) b)
    ∧ (concatDs ad (concatDs ad old b) b).coords ad
        = old.coords ad ++ b.coords ad ++ b.coords ad := by
  have h1 := combine_and_write_append_eq w sources target ad cd b old hb hm hc
  have hb2 : combinedRechunked
      (setStore w target (zarrStoreOf (concatDs ad old b))) sources ad cd
      = .ok b := by
    rw [combinedRechunked_setStore]
    exact hb
  have hm2 : get_mapper
      (setStore w target (zarrStoreOf (concatDs ad old b))) target
      = zarrStoreOf (concatDs ad old b) :=
    get_mapper_setStore_self w target _
  have hc2 : concatCompat ad (concatDs ad old b) b :=
    concatCompat_concatDs ad old b hc
  have h2 := combine_and_write_append_eq
    (setStore w target (zarrStoreOf (concatDs ad old b))) sources target ad cd
    b (concatDs ad old b) hb2 hm2 hc2
  refine ⟨by rw [h1], ?_, ?_, ?_⟩
  · rw [h1]
    dsimp only
    rw [h2]
  · rw [h1]
    dsimp only
    rw [h2]
    dsimp only
    rw [get_mapper_setStore_self]
    rfl
  · rw [concatDs_coords_self ad (concatDs ad old b) b hc2.2.1,
      concatDs_coords_self ad old b hc.2.1]

/-- Witness for C6: on a concrete world with a non-empty store, two runs
of the same batch append it twice. -/
theorem combine_and_write_not_idempotent_witness :
    (combinedRechunked wApp ["s1"] "time" "time" = .ok dsOne
      ∧ get_mapper wApp "store" = zarrStoreOf oldOne
      ∧ concatCompat "time" oldOne dsOne)
    ∧ ((combine_and_write wApp ["s1"] "store" "time" "time").2 = .ok "store"
      ∧ (combine_and_write (combine_and_write wApp ["s1"] "store" "time" "time").1
          ["s1"] "store" "time" "time").2 = .ok "store"
      ∧ (get_mapper (combine_and_write
            (combine_and_write wApp ["s1"] "store" "time" "time").1
            ["s1"] "store" "time" "time").1 "store").zarr
          = some (concatDs "time" (concatDs "time" oldOne dsOne) dsOne)
      ∧ (concatDs "time" (concatDs "time" oldOne dsOne) dsOne).coords "time"
          = oldOne.coords "time" ++ dsOne.coords "time" ++ dsOne.coords "time") :=
  ⟨⟨by decide, by decide, by decide⟩,
    combine_and_write_not_idempotent wApp ["s1"] "store" "time" "time"
      dsOne oldOne (by decide) (by decide) (by decide)⟩

/-- C10: the provisioning declaration declares an externally
load-balanced service with an auto-assigned public IP running exactly
one task instance, and configures its HTTP health check on the fixed
path `/api/health` and fixed port `8080`, matching the container's
declared port. -/
theorem bakery_stack_service_spec (identifier : String) :
    (bakeryStack identifier).service.public_load_balancer = true
    ∧ (bakeryStack identifier).service.assign_public_ip = true
    ∧ (bakeryStack identifier).service.desired_count = 1
    ∧ (bakeryStack identifier).service.health_check.path = "/api/health"
    ∧ (bakeryStack identifier).service.health_check.port = "8080"
    ∧ (bakeryStack identifier).container.port_mappings = [⟨8080, 8080⟩]
    ∧ ∀ pm ∈ (bakeryStack identifier).container.port_mappings,
        toString pm.container_port
          = (bakeryStack identifier).service.health_check.port := by
  refine ⟨rfl, rfl, rfl, rfl, rfl, rfl, ?_⟩
  intro pm hpm
  simp only [bakeryStack, List.mem_singleton] at hpm
  subst hpm
  rfl

/-- Witness for C10 at a concrete stack identifier. -/
theorem bakery_stack_service_spec_witness :
    (bakeryStack "dev").service.public_load_balancer = true
    ∧ (bakeryStack "dev").service.assign_public_ip = true
    ∧ (bakeryStack "dev").service.desired_count = 1
    ∧ (bakeryStack "dev").service.health_check.path = "/api/health"
    ∧ (bakeryStack "dev").service.health_check.port = "8080"
    ∧ (bakeryStack "dev").container.port_mappings = [⟨8080, 8080⟩]
    ∧ ∀ pm ∈ (bakeryStack "dev").container.port_mappings,
        toString pm.container_port
          = (bakeryStack "dev").service.health_check.port :=
  bakery_stack_service_spec "dev"

end Bakery
